import Mathlib

/-!
Verification of the `midi_sample_qzt` sampler (src/src/main.rs).

The program decodes audio files into flat `Vec<f32>` PCM buffers at
startup, stores them in a sample library (`Vec<SampleData>`), and on
each recognised MIDI note-on streams the matched buffer into one of
`NUM_CLIENT` channel queues, chosen round-robin by a mutable cursor
`idx`.  Each channel's JACK render callback pops queued values
non-blockingly into its output period.

Sample values (`f32` in the source) are modelled as rationals: the
program never performs arithmetic on them, it only moves them, so any
type with decidable equality is a faithful carrier and `ℚ` represents
the source literal `0.3201` exactly.
-/

/-- `const NUM_CLIENT: usize = 3;` — the channel-pool size. -/
def NUM_CLIENT : Nat := 3

/-- `struct SampleData { data: Vec<f32>, note: u8 }` — one library entry. -/
structure SampleData where
  data : List ℚ
  note : Nat
deriving DecidableEq, Repr

/-- State owned by the MIDI-input closure: the `NUM_CLIENT` channel
queues (each `q` lists the values sent but not yet popped, front =
oldest) and the dispatch cursor `idx`. -/
structure DispatchState where
  queues : List (List ℚ)
  idx : Nat
deriving DecidableEq, Repr

/-- `fn play_sample(sample: &[f32], sender: &Sender<f32>)` — sends every
value of `sample`, in order, into the queue; each `send` appends one
value at the back. -/
def play_sample : List ℚ → List ℚ → List ℚ
  | [], queue => queue
  | f :: rest, queue => play_sample rest (queue ++ [f])

/-- Body of the MIDI closure after the note-on filter (main.rs:286-296):
look the note up with `sample_data.iter().find(|s| s.note == message[1])`;
if found, `play_sample` the buffer into the sender at `idx`, then
`idx += 1; idx %= senders.len()`; if absent, do nothing. -/
def on_trigger (lib : List SampleData) (note : Nat) (st : DispatchState) :
    DispatchState :=
  match lib.find? (fun s => s.note == note) with
  | some sample =>
      { queues :=
          st.queues.set st.idx (play_sample sample.data (st.queues.getD st.idx [])),
        idx := (st.idx + 1) % st.queues.length }
  | none => st

/-- The full MIDI-input closure body (main.rs:277-299): dispatch only
3-byte messages with status byte 144 and nonzero velocity (byte 2);
byte 1 is the note. -/
def midiCallback (lib : List SampleData) (message : List Nat)
    (st : DispatchState) : DispatchState :=
  if message.length = 3 ∧ message.getD 0 0 = 144 then
    if message.getD 2 0 ≠ 0 then
      on_trigger lib (message.getD 1 0) st
    else st
  else st

/-- Iterate `on_trigger` over a sequence of note identifiers. -/
def runTriggers (lib : List SampleData) : DispatchState → List Nat →
    DispatchState
  | st, [] => st
  | st, n :: rest => runTriggers lib (on_trigger lib n st) rest

/-- The sequence of channel indices that successive triggers dispatch
to (unmatched notes dispatch nowhere and record no index). -/
def dispatchChannels (lib : List SampleData) : DispatchState → List Nat →
    List Nat
  | _, [] => []
  | st, n :: rest =>
      match lib.find? (fun s => s.note == n) with
      | some _ => st.idx :: dispatchChannels lib (on_trigger lib n st) rest
      | none => dispatchChannels lib (on_trigger lib n st) rest

/-- `sample` is the first entry of `lib` carrying `note`, in scan order:
it occurs at some position `i`, matches, and no earlier entry matches. -/
def isFirstMatch (lib : List SampleData) (note : Nat) (sample : SampleData) :
    Prop :=
  ∃ i, lib.get? i = some sample ∧ sample.note = note ∧
    ∀ j, j < i → ∀ t, lib.get? j = some t → t.note ≠ note

-- Basic lemmas about the dispatcher.

theorem play_sample_eq_append (sample queue : List ℚ) :
    play_sample sample queue = queue ++ sample := by
  induction sample generalizing queue with
  | nil => simp [play_sample]
  | cons f rest ih => simp [play_sample, ih]

theorem on_trigger_queues_length (lib : List SampleData) (note : Nat)
    (st : DispatchState) :
    (on_trigger lib note st).queues.length = st.queues.length := by
  unfold on_trigger
  cases lib.find? (fun s => s.note == note) <;> simp

theorem on_trigger_of_find_none (lib : List SampleData) (note : Nat)
    (st : DispatchState) (h : lib.find? (fun s => s.note == note) = none) :
    on_trigger lib note st = st := by
  unfold on_trigger
  rw [h]

theorem on_trigger_of_find_some (lib : List SampleData) (note : Nat)
    (st : DispatchState) (sample : SampleData)
    (h : lib.find? (fun s => s.note == note) = some sample) :
    on_trigger lib note st =
      { queues := st.queues.set st.idx (st.queues.getD st.idx [] ++ sample.data),
        idx := (st.idx + 1) % st.queues.length } := by
  unfold on_trigger
  rw [h]
  simp [play_sample_eq_append]

theorem find?_some_isFirstMatch (lib : List SampleData) (note : Nat)
    (sample : SampleData)
    (h : lib.find? (fun s => s.note == note) = some sample) :
    isFirstMatch lib note sample := by
  induction lib with
  | nil => simp [List.find?] at h
  | cons hd tl ih =>
      by_cases hhd : hd.note = note
      · have hb : (hd.note == note) = true := by simp [hhd]
        have h' : some hd = some sample := by
          simpa [List.find?, hb] using h
        refine ⟨0, by simpa using h', ?_, ?_⟩
        · cases h'; exact hhd
        · intro j hj t ht
          omega
      · have hb : (hd.note == note) = false := by simp [hhd]
        have h' : tl.find? (fun s => s.note == note) = some sample := by
          simpa [List.find?, hb] using h
        obtain ⟨i, hget, hnote, hfirst⟩ := ih h'
        refine ⟨i + 1, by simpa using hget, hnote, ?_⟩
        intro j hj t ht
        cases j with
        | zero =>
            simp at ht
            rw [← ht]
            exact hhd
        | succ j' =>
            exact hfirst j' (by omega) t (by simpa using ht)

-- Decoder model (main.rs:115-179).

/-- Result of `decoder.decode(&packet)` for one packet: decoded
interleaved samples, a per-unit `Error::DecodeError`, or any other
(terminal) error. -/
inductive DecodeResult where
  | ok (samples : List ℚ)
  | decodeErr
  | otherErr
deriving DecidableEq, Repr

/-- One step of `format.next_packet()`: a packet carrying a track id
and its decode outcome, or a stream error (`Err` from `next_packet`,
which breaks the loop; stream end is the empty list). -/
inductive PacketEvent where
  | packet (trackId : Nat) (res : DecodeResult)
  | streamErr
deriving DecidableEq, Repr

/-- The decode loop (main.rs:119-177): skip packets of other tracks,
append decoded samples to `data`, skip `DecodeError` packets, break on
any other decode error or on a `next_packet` error, keeping `data`. -/
def decodeLoop (trackId : Nat) : List PacketEvent → List ℚ → List ℚ
  | [], data => data
  | PacketEvent.streamErr :: _, data => data
  | PacketEvent.packet tid res :: rest, data =>
      if tid ≠ trackId then decodeLoop trackId rest data
      else
        match res with
        | DecodeResult.ok samples => decodeLoop trackId rest (data ++ samples)
        | DecodeResult.decodeErr => decodeLoop trackId rest data
        | DecodeResult.otherErr => data

/-- Specification-side view: the successfully decoded units of the
selected track, in stream order, up to (excluding) the first terminal
stop (a stream error, a non-`DecodeError` decode failure, or stream
end). -/
def decodedUnits (trackId : Nat) : List PacketEvent → List (List ℚ)
  | [] => []
  | PacketEvent.streamErr :: _ => []
  | PacketEvent.packet tid res :: rest =>
      if tid ≠ trackId then decodedUnits trackId rest
      else
        match res with
        | DecodeResult.ok samples => samples :: decodedUnits trackId rest
        | DecodeResult.decodeErr => decodedUnits trackId rest
        | DecodeResult.otherErr => []

-- Library build model (main.rs:68-113).

/-- Startup failures at the per-file stage, each of which is an
`unwrap`/`panic` in the source: file open, format probe, default
track lookup, codec construction. -/
inductive LoadError where
  | openFail
  | probeFail
  | noTrack
  | codecFail
deriving DecidableEq, Repr

/-- What the filesystem/decoder stack yields for one configured path:
one of the fatal per-file failures, or a packet stream for a track. -/
inductive FileOutcome where
  | openFail
  | probeFail
  | noTrack
  | codecFail
  | ok (trackId : Nat) (events : List PacketEvent)
deriving DecidableEq, Repr

/-- One sample descriptor together with the outcome the external
decoder stack produces for its path. -/
structure SampleDescr where
  outcome : FileOutcome
  note : Nat
deriving DecidableEq, Repr

/-- Per-file load (main.rs:82-179): any unwrap failure is process-fatal
(modelled as `Except.error`); otherwise run the decode loop from an
empty buffer. -/
def loadSample : FileOutcome → Except LoadError (List ℚ)
  | FileOutcome.openFail => Except.error LoadError.openFail
  | FileOutcome.probeFail => Except.error LoadError.probeFail
  | FileOutcome.noTrack => Except.error LoadError.noTrack
  | FileOutcome.codecFail => Except.error LoadError.codecFail
  | FileOutcome.ok trackId events => Except.ok (decodeLoop trackId events [])

/-- The sample-loading loop (main.rs:78-180): process descriptors in
order, pushing a `SampleData` per descriptor; the first failure aborts
the process (no partial library escapes the loop). -/
def buildLibrary : List SampleDescr → Except LoadError (List SampleData)
  | [] => Except.ok []
  | d :: rest =>
      match loadSample d.outcome with
      | Except.error e => Except.error e
      | Except.ok dat =>
          match buildLibrary rest with
          | Except.error e => Except.error e
          | Except.ok lib =>
              Except.ok ({ data := dat, note := d.note } :: lib)

-- Render callback model (main.rs:228-237).

/-- One invocation of the JACK process closure for one channel: for
each output slot in order, one `try_recv` on the queue; a popped value
overwrites the slot, an empty queue leaves the slot as it was.
Returns the period after the pass and the remaining queue. -/
def renderCallback : List ℚ → List ℚ → List ℚ × List ℚ
  | queue, [] => ([], queue)
  | [], s :: rest =>
      let r := renderCallback [] rest
      (s :: r.1, r.2)
  | f :: q, _ :: rest =>
      let r := renderCallback q rest
      (f :: r.1, r.2)

-- Channel setup model (main.rs:193-262).

/-- The `f32` literal `0.3201` pushed into every fresh channel. -/
def primeF : ℚ := 0.3201

/-- The channel-creation loop (main.rs:193-253): each iteration
appends a fresh queue and sends one `0.3201` into it. -/
def channelSetupLoop : Nat → List (List ℚ)
  | 0 => []
  | n + 1 => channelSetupLoop n ++ [[primeF]]

/-- The sender check (main.rs:255-262): one more `0.3201` into every
queue, in order. -/
def senderCheck (qs : List (List ℚ)) : List (List ℚ) :=
  qs.map (fun q => q ++ [primeF])

/-- The queue contents after both startup loops, before any MIDI event
is processed. -/
def setupQueues : List (List ℚ) :=
  senderCheck (channelSetupLoop NUM_CLIENT)

-- Concrete fixtures used by the witnesses.

/-- A small concrete PCM buffer. -/
def kickBuf : List ℚ := [1/2, -1/4, 3/8]

/-- A second concrete PCM buffer. -/
def snareBuf : List ℚ := [1/10, 1/5]

/-- A concrete two-entry sample library. -/
def testLib : List SampleData :=
  [{ data := kickBuf, note := 36 }, { data := snareBuf, note := 38 }]

/-- The dispatcher state right after startup: the primed queues and
`idx = 0` (main.rs:272). -/
def initState : DispatchState := { queues := setupQueues, idx := 0 }

-- Round-robin helper.

theorem dispatchChannels_of_all_found (lib : List SampleData)
    (notes : List Nat) :
    ∀ st : DispatchState, st.queues.length = NUM_CLIENT →
      st.idx < NUM_CLIENT →
      (∀ n ∈ notes, (lib.find? (fun s => s.note == n)).isSome) →
      dispatchChannels lib st notes =
        (List.range notes.length).map (fun i => (st.idx + i) % NUM_CLIENT) := by
  induction notes with
  | nil => intro st _ _ _; rfl
  | cons n rest ih =>
      intro st hq hidx hall
      obtain ⟨sample, hfind⟩ :=
        Option.isSome_iff_exists.mp (hall n (List.mem_cons_self n rest))
      have hlen : (on_trigger lib n st).queues.length = NUM_CLIENT := by
        rw [on_trigger_queues_length]; exact hq
      have hidx' : (on_trigger lib n st).idx = (st.idx + 1) % NUM_CLIENT := by
        rw [on_trigger_of_find_some lib n st sample hfind]
        simp [hq]
      have hlt' : (on_trigger lib n st).idx < NUM_CLIENT := by
        rw [hidx']
        exact Nat.mod_lt _ (by simp [NUM_CLIENT])
      have hrest := ih (on_trigger lib n st) hlen hlt'
        (fun m hm => hall m (List.mem_cons_of_mem n hm))
      unfold dispatchChannels
      rw [hfind]
      simp only [List.length_cons, List.range_succ_eq_map, List.map_cons,
        List.map_map, hrest]
      refine List.cons_eq_cons.mpr ⟨?_, ?_⟩
      · rw [Nat.add_zero, Nat.mod_eq_of_lt hidx]
      · apply List.map_congr_left
        intro i _
        simp only [Function.comp_apply, hidx', Nat.succ_eq_add_one]
        rw [Nat.mod_add_mod]
        ring_nf

/-- C1: the dispatch cursor starts at 0 and advances `(cursor + 1) mod N`
per successful dispatch, so with every trigger present in the library the
`i`-th dispatch (0-based) lands on channel `i % NUM_CLIENT`; for `K ≤ N`
triggers the channels are `0, 1, ..., K-1`, pairwise distinct, and the
`(N+1)`-th dispatch reuses channel 0. -/
theorem c1_round_robin (lib : List SampleData) (st : DispatchState)
    (notes : List Nat)
    (hq : st.queues.length = NUM_CLIENT) (h0 : st.idx = 0)
    (hall : ∀ n ∈ notes, (lib.find? (fun s => s.note == n)).isSome) :
    dispatchChannels lib st notes =
      (List.range notes.length).map (fun i => i % NUM_CLIENT) ∧
    (notes.length ≤ NUM_CLIENT →
      dispatchChannels lib st notes = List.range notes.length ∧
      (dispatchChannels lib st notes).Nodup) ∧
    (∀ i, i < notes.length →
      (dispatchChannels lib st notes).get? i = some (i % NUM_CLIENT)) ∧
    (NUM_CLIENT < notes.length →
      (dispatchChannels lib st notes).get? NUM_CLIENT = some 0) := by
  have hmain : dispatchChannels lib st notes =
      (List.range notes.length).map (fun i => i % NUM_CLIENT) := by
    have := dispatchChannels_of_all_found lib notes st hq
      (by rw [h0]; simp [NUM_CLIENT]) hall
    rw [this, h0]
    simp
  refine ⟨hmain, ?_, ?_, ?_⟩
  · intro hK
    have hid : dispatchChannels lib st notes = List.range notes.length := by
      rw [hmain]
      have : ∀ i ∈ List.range notes.length, i % NUM_CLIENT = i := by
        intro i hi
        rw [List.mem_range] at hi
        exact Nat.mod_eq_of_lt (lt_of_lt_of_le hi hK)
      calc (List.range notes.length).map (fun i => i % NUM_CLIENT)
          = (List.range notes.length).map id := List.map_congr_left this
        _ = List.range notes.length := List.map_id _
    exact ⟨hid, by rw [hid]; exact List.nodup_range _⟩
  · intro i hi
    rw [hmain, List.get?_map, List.get?_range hi]
    rfl
  · intro hN
    rw [hmain, List.get?_map, List.get?_range hN]
    simp

/-- Witness for C1: four present triggers on the three-channel pool
dispatch to channels 0, 1, 2, 0. -/
theorem c1_round_robin_witness :
    dispatchChannels testLib initState [36, 38, 36, 38] =
      (List.range 4).map (fun i => i % NUM_CLIENT) :=
  (c1_round_robin testLib initState [36, 38, 36, 38] (by decide) rfl
    (by decide)).1

/-- C2: a trigger present in the library selects the first matching
entry in scan order, appends that entry's whole buffer, in order, to the
queue at the current cursor, and advances the cursor `(idx + 1) mod N`. -/
theorem c2_on_trigger_present (lib : List SampleData) (note : Nat)
    (st : DispatchState) (sample : SampleData)
    (h : lib.find? (fun s => s.note == note) = some sample) :
    isFirstMatch lib note sample ∧
    (on_trigger lib note st).queues =
      st.queues.set st.idx (st.queues.getD st.idx [] ++ sample.data) ∧
    (on_trigger lib note st).idx = (st.idx + 1) % st.queues.length := by
  refine ⟨find?_some_isFirstMatch lib note sample h, ?_, ?_⟩
  · rw [on_trigger_of_find_some lib note st sample h]
  · rw [on_trigger_of_find_some lib note st sample h]

/-- Witness for C2: triggering note 36 on the test library appends the
kick buffer to queue 0 and moves the cursor to 1. -/
theorem c2_on_trigger_present_witness :
    (on_trigger testLib 36 initState).queues =
      initState.queues.set initState.idx
        (initState.queues.getD initState.idx [] ++ kickBuf) ∧
    (on_trigger testLib 36 initState).idx =
      (initState.idx + 1) % initState.queues.length :=
  ⟨(c2_on_trigger_present testLib 36 initState
      { data := kickBuf, note := 36 } rfl).2.1,
   (c2_on_trigger_present testLib 36 initState
      { data := kickBuf, note := 36 } rfl).2.2⟩

/-- C3: a trigger absent from the library leaves the whole dispatcher
state (every queue and the cursor) unchanged, with no error. -/
theorem c3_on_trigger_absent (lib : List SampleData) (note : Nat)
    (st : DispatchState)
    (h : lib.find? (fun s => s.note == note) = none) :
    on_trigger lib note st = st :=
  on_trigger_of_find_none lib note st h

/-- Witness for C3: note 99 is not in the test library and dispatch is a
no-op. -/
theorem c3_on_trigger_absent_witness :
    on_trigger testLib 99 initState = initState :=
  c3_on_trigger_absent testLib 99 initState (by decide)

/-- C4: the MIDI closure dispatches (with byte 1 as the trigger) exactly
when the message is 3 bytes long with status byte 144 and nonzero
velocity byte; every other message leaves queues and cursor unchanged. -/
theorem c4_event_filter (lib : List SampleData) (message : List Nat)
    (st : DispatchState) :
    ((message.length = 3 ∧ message.getD 0 0 = 144 ∧ message.getD 2 0 ≠ 0) →
      midiCallback lib message st =
        on_trigger lib (message.getD 1 0) st) ∧
    (¬ (message.length = 3 ∧ message.getD 0 0 = 144 ∧
        message.getD 2 0 ≠ 0) →
      midiCallback lib message st = st) := by
  constructor
  · rintro ⟨h3, h144, hvel⟩
    unfold midiCallback
    rw [if_pos ⟨h3, h144⟩, if_pos hvel]
  · intro hno
    unfold midiCallback
    by_cases hhd : message.length = 3 ∧ message.getD 0 0 = 144
    · rw [if_pos hhd]
      by_cases hvel : message.getD 2 0 ≠ 0
      · exact absurd ⟨hhd.1, hhd.2, hvel⟩ hno
      · rw [if_neg hvel]
    · rw [if_neg hhd]

/-- Witness for C4: a note-on is dispatched; a note-off (velocity 0), a
wrong status byte, and a short message are all ignored. -/
theorem c4_event_filter_witness :
    midiCallback testLib [144, 36, 100] initState =
      on_trigger testLib 36 initState ∧
    midiCallback testLib [144, 36, 0] initState = initState ∧
    midiCallback testLib [128, 36, 100] initState = initState ∧
    midiCallback testLib [144, 36] initState = initState :=
  ⟨(c4_event_filter testLib [144, 36, 100] initState).1 (by decide),
   (c4_event_filter testLib [144, 36, 0] initState).2 (by decide),
   (c4_event_filter testLib [128, 36, 100] initState).2 (by decide),
   (c4_event_filter testLib [144, 36] initState).2 (by decide)⟩

-- Decode-loop helper.

theorem decodeLoop_eq_flatten (trackId : Nat) (events : List PacketEvent) :
    ∀ data : List ℚ,
      decodeLoop trackId events data =
        data ++ (decodedUnits trackId events).flatten := by
  induction events with
  | nil => intro data; simp [decodeLoop, decodedUnits]
  | cons e rest ih =>
      intro data
      cases e with
      | streamErr => simp [decodeLoop, decodedUnits]
      | packet tid res =>
          by_cases htid : tid ≠ trackId
          · simp [decodeLoop, decodedUnits, htid, ih]
          · cases res with
            | ok samples => simp [decodeLoop, decodedUnits, htid, ih]
            | decodeErr => simp [decodeLoop, decodedUnits, htid, ih]
            | otherErr => simp [decodeLoop, decodedUnits, htid]

theorem decodedUnits_length_mod (trackId c : Nat) :
    ∀ events : List PacketEvent,
      (∀ e ∈ events, ∃ tid s,
        e = PacketEvent.packet tid (DecodeResult.ok s) ∧
        (tid = trackId → s.length % c = 0)) →
      ∀ u ∈ decodedUnits trackId events, u.length % c = 0 := by
  intro events
  induction events with
  | nil => intro _ u hu; simp [decodedUnits] at hu
  | cons e rest ih =>
      intro hvalid u hu
      obtain ⟨tid, s, he, hmod⟩ := hvalid e (List.mem_cons_self e rest)
      subst he
      have hrest := fun e he => hvalid e (List.mem_cons_of_mem _ he)
      by_cases htid : tid ≠ trackId
      · rw [decodedUnits, if_pos htid] at hu
        exact ih hrest u hu
      · push_neg at htid
        rw [decodedUnits, if_neg (by simp [htid])] at hu
        rcases List.mem_cons.mp hu with rfl | hu'
        · exact hmod htid
        · exact ih hrest u hu'

theorem mem_decodedUnits (trackId : Nat) :
    ∀ events : List PacketEvent,
      (∀ e ∈ events, ∃ tid s,
        e = PacketEvent.packet tid (DecodeResult.ok s)) →
      ∀ s : List ℚ,
        PacketEvent.packet trackId (DecodeResult.ok s) ∈ events →
        s ∈ decodedUnits trackId events := by
  intro events
  induction events with
  | nil => intro _ s hs; simp at hs
  | cons e rest ih =>
      intro hvalid s hs
      obtain ⟨tid, t, he⟩ := hvalid e (List.mem_cons_self e rest)
      subst he
      have hrest := fun e he => hvalid e (List.mem_cons_of_mem _ he)
      rcases List.mem_cons.mp hs with heq | hmem
      · obtain ⟨h1, h2⟩ : tid = trackId ∧ t = s := by
          injection heq.symm with ha hb
          exact ⟨ha, by injection hb⟩
        subst h1; subst h2
        rw [decodedUnits, if_neg (by simp)]
        exact List.mem_cons_self _ _
      · by_cases htid : tid ≠ trackId
        · rw [decodedUnits, if_pos htid]
          exact ih hrest s hmem
        · push_neg at htid
          rw [decodedUnits, if_neg (by simp [htid])]
          exact List.mem_cons_of_mem _ (ih hrest s hmem)

/-- C5: a per-unit `DecodeError` skips that unit and decoding continues;
any other decode error stops the loop keeping the buffer accumulated so
far; the final buffer is the prior data followed by the concatenation,
in stream order, of all successfully decoded units before the terminal
stop. -/
theorem c5_decode_error_tolerance (trackId : Nat)
    (events : List PacketEvent) (data : List ℚ) :
    decodeLoop trackId events data =
      data ++ (decodedUnits trackId events).flatten ∧
    (∀ rest, decodeLoop trackId
        (PacketEvent.packet trackId DecodeResult.decodeErr :: rest) data =
      decodeLoop trackId rest data) ∧
    (∀ rest, decodeLoop trackId
        (PacketEvent.packet trackId DecodeResult.otherErr :: rest) data =
      data) := by
  refine ⟨decodeLoop_eq_flatten trackId events data, ?_, ?_⟩
  · intro rest
    rw [decodeLoop, if_neg (by simp)]
  · intro rest
    rw [decodeLoop, if_neg (by simp)]

/-- C6: for a valid non-empty stream — every packet decodes successfully
and every unit of the selected track has a length divisible by the
channel count, with at least one non-empty unit — the decode loop yields
a buffer whose length is a positive multiple of the channel count. -/
theorem c6_decode_postcondition (trackId c : Nat)
    (events : List PacketEvent) (hc : 0 < c)
    (hvalid : ∀ e ∈ events, ∃ tid s,
      e = PacketEvent.packet tid (DecodeResult.ok s) ∧
      (tid = trackId → s.length % c = 0))
    (hne : ∃ s, PacketEvent.packet trackId (DecodeResult.ok s) ∈ events ∧
      s ≠ []) :
    0 < (decodeLoop trackId events []).length ∧
    (decodeLoop trackId events []).length % c = 0 := by
  have hres : decodeLoop trackId events [] =
      (decodedUnits trackId events).flatten := by
    rw [decodeLoop_eq_flatten]
    simp
  have hlen : (decodeLoop trackId events []).length =
      ((decodedUnits trackId events).map List.length).sum := by
    rw [hres, List.length_flatten]
  constructor
  · obtain ⟨s, hmem, hs⟩ := hne
    have hin : s ∈ decodedUnits trackId events :=
      mem_decodedUnits trackId events
        (fun e he => by
          obtain ⟨tid, t, het, _⟩ := hvalid e he
          exact ⟨tid, t, het⟩)
        s hmem
    have hle : s.length ≤ ((decodedUnits trackId events).map List.length).sum :=
      List.single_le_sum (fun x _ => Nat.zero_le x) s.length
        (List.mem_map_of_mem List.length hin)
    have hpos : 0 < s.length := List.length_pos.mpr hs
    rw [hlen]
    omega
  · rw [hlen]
    rw [← Nat.dvd_iff_mod_eq_zero]
    apply List.dvd_sum
    intro x hx
    obtain ⟨u, hu, rfl⟩ := List.mem_map.mp hx
    exact Nat.dvd_iff_mod_eq_zero.mpr
      (decodedUnits_length_mod trackId c events hvalid u hu)

/-- Witness for C6: a one-packet stereo stream of two samples yields a
buffer of positive even length. -/
theorem c6_decode_postcondition_witness :
    0 < (decodeLoop 1
      [PacketEvent.packet 1 (DecodeResult.ok [1, 2])] []).length ∧
    (decodeLoop 1
      [PacketEvent.packet 1 (DecodeResult.ok [1, 2])] []).length % 2 = 0 :=
  c6_decode_postcondition 1 2
    [PacketEvent.packet 1 (DecodeResult.ok [1, 2])] (by decide)
    (by
      intro e he
      rw [List.mem_singleton] at he
      subst he
      exact ⟨1, [1, 2], rfl, fun _ => rfl⟩)
    ⟨[1, 2], List.mem_singleton_self _, by simp⟩

/-- C7: the sample-loading loop is fail-fast: if any configured file
fails to open or decode, the whole build is process-fatal (an error, in
the model), and a successful build always contains one fully loaded
entry per descriptor — never a partial library. -/
theorem c7_fail_fast (descrs : List SampleDescr) :
    ((∃ d ∈ descrs, ∃ e, loadSample d.outcome = Except.error e) →
      ∃ e, buildLibrary descrs = Except.error e) ∧
    (∀ lib, buildLibrary descrs = Except.ok lib →
      lib.length = descrs.length ∧
      ∀ i di, descrs.get? i = some di → ∃ dat,
        loadSample di.outcome = Except.ok dat ∧
        lib.get? i = some { data := dat, note := di.note }) := by
  induction descrs with
  | nil =>
      constructor
      · rintro ⟨d, hd, _⟩
        simp at hd
      · intro lib hlib
        rw [buildLibrary] at hlib
        injection hlib with hlib
        subst hlib
        refine ⟨rfl, ?_⟩
        intro i di hdi
        simp at hdi
  | cons d rest ih =>
      constructor
      · rintro ⟨d', hd', e, he⟩
        rcases List.mem_cons.mp hd' with rfl | hmem
        · refine ⟨e, ?_⟩
          rw [buildLibrary, he]
        · cases hload : loadSample d.outcome with
          | error e0 =>
              refine ⟨e0, ?_⟩
              rw [buildLibrary, hload]
          | ok dat =>
              obtain ⟨e1, he1⟩ := ih.1 ⟨d', hmem, e, he⟩
              refine ⟨e1, ?_⟩
              rw [buildLibrary, hload, he1]
      · intro lib hlib
        rw [buildLibrary] at hlib
        cases hload : loadSample d.outcome with
        | error e0 =>
            rw [hload] at hlib
            cases hlib
        | ok dat =>
            rw [hload] at hlib
            cases hrest : buildLibrary rest with
            | error e0 =>
                rw [hrest] at hlib
                cases hlib
            | ok libr =>
                rw [hrest] at hlib
                injection hlib with hlib
                subst hlib
                obtain ⟨hlen, htail⟩ := ih.2 libr hrest
                refine ⟨by simp [hlen], ?_⟩
                intro i di hdi
                cases i with
                | zero =>
                    simp at hdi
                    subst hdi
                    exact ⟨dat, hload, rfl⟩
                | succ i' =>
                    simp only [List.get?_cons_succ] at hdi ⊢
                    exact htail i' di hdi

/-- Witness for C7: a single unopenable file makes the build fail. -/
theorem c7_fail_fast_witness :
    ∃ e, buildLibrary [{ outcome := FileOutcome.openFail, note := 36 }] =
      Except.error e :=
  (c7_fail_fast [{ outcome := FileOutcome.openFail, note := 36 }]).1
    ⟨{ outcome := FileOutcome.openFail, note := 36 },
      List.mem_singleton_self _, LoadError.openFail, rfl⟩

-- Render-callback helper.

theorem renderCallback_spec (out : List ℚ) :
    ∀ queue : List ℚ,
      renderCallback queue out =
        (queue.take out.length ++ out.drop queue.length,
         queue.drop out.length) := by
  induction out with
  | nil => intro queue; simp [renderCallback]
  | cons s rest ih =>
      intro queue
      cases queue with
      | nil => simp [renderCallback, ih]
      | cons f q => simp [renderCallback, ih]

/-- C8: one pop is attempted per output slot in order; available values
overwrite slots in FIFO order (the first `min |queue| |out|` slots get
the queue's prefix), slots beyond the queue keep their previous values,
and exactly the first `|out|` queued values are consumed. -/
theorem c8_render_fill (queue out : List ℚ) :
    renderCallback queue out =
      (queue.take out.length ++ out.drop queue.length,
       queue.drop out.length) :=
  renderCallback_spec out queue

/-- C10: after channel creation and the sender check, each of the
`NUM_CLIENT` queues holds exactly two values, both the literal `0.3201`,
so the first two values a render callback pops from any queue are
`0.3201`. -/
theorem c10_startup_priming :
    setupQueues.length = NUM_CLIENT ∧
    setupQueues = List.replicate NUM_CLIENT [primeF, primeF] ∧
    (∀ q ∈ setupQueues, q.length = 2 ∧ ∀ x ∈ q, x = primeF) ∧
    (∀ q ∈ setupQueues, ∀ out : List ℚ, 2 ≤ out.length →
      (renderCallback q out).1.take 2 = [primeF, primeF]) := by
  have hsq : setupQueues = List.replicate NUM_CLIENT [primeF, primeF] := rfl
  refine ⟨rfl, hsq, ?_, ?_⟩
  · intro q hq
    rw [hsq] at hq
    have hq2 := List.eq_of_mem_replicate hq
    subst hq2
    refine ⟨rfl, ?_⟩
    intro x hx
    simp at hx
    exact hx
  · intro q hq out hout
    rw [hsq] at hq
    have hq2 := List.eq_of_mem_replicate hq
    subst hq2
    rw [renderCallback_spec]
    have htake : ([primeF, primeF] : List ℚ).take out.length =
        [primeF, primeF] :=
      List.take_of_length_le (by simpa using hout)
    simp [htake, List.take_append_eq_append_take]

/-- Witness for C10: a primed queue renders `0.3201` into the first two
slots of a three-slot period. -/
theorem c10_startup_priming_witness :
    (renderCallback [primeF, primeF] [0, 0, 0]).1.take 2 =
      [primeF, primeF] :=
  c10_startup_priming.2.2.2 [primeF, primeF]
    (List.mem_cons_self [primeF, primeF]
      [[primeF, primeF], [primeF, primeF]])
    [0, 0, 0] (by simp)
